import Mathlib

/-!
Shallow embedding of `mxfusion/inference/batch_inference_loop_lbfgs.py`.

The file models the `ParameterToArrayConverter` class and the
`BatchInferenceLoopLBFGS.run` driver.  MXNet NDArrays are modelled as a flat
row-major list of exact rational element values together with their shape,
dtype tag and device context; numeric values are carried exactly (the dtype
and context tags are tracked, rounding of a cast is outside the model).  The
gluon `ParameterDict` is modelled as its ordered association list, and the
in-place mutation performed by `Parameter.set_data` is modelled by explicit
state passing: an operation that mutates the dictionary returns the updated
dictionary.  Python exceptions (`ValueError`, `KeyError`, `IndexError`, and
shape errors raised inside the tensor library) are modelled with `Except` /
`Option`.
-/

deriving instance DecidableEq for Except

namespace MXFusion

/-- MXNet numeric dtype tags. `float32` is the engine-wide default used by
`mx.nd.zeros` when no dtype is given. -/
inductive DType where
  | float32
  | float64
  | float16
  | int32
  | int64
  | uint8
deriving DecidableEq

/-- MXNet device context tag. `cpu 0` is the default context used by
`mx.nd.zeros` when no `ctx` argument is given. -/
inductive Context where
  | cpu (device_id : Nat)
  | gpu (device_id : Nat)
deriving DecidableEq

/-- The dtype `mx.nd.zeros` uses when none is passed. -/
def defaultDType : DType := DType.float32

/-- The context `mx.nd.zeros` uses when none is passed. -/
def defaultContext : Context := Context.cpu 0

/-- An MXNet NDArray: shape metadata, the flat row-major element values,
the dtype tag and the device context. -/
structure NDArray where
  shape : List Nat
  data : List ℚ
  dtype : DType
  context : Context
deriving DecidableEq

/-- `ndarray.size`: the number of elements announced by the shape. -/
def NDArray.size (a : NDArray) : Nat := a.shape.prod

/-- `mx.nd.reshape(a, shape)`: same row-major data under a new shape. -/
def NDArray.reshape (a : NDArray) (shape : List Nat) : NDArray :=
  { a with shape := shape }

/-- `mx.nd.array(values, dtype=dtype, ctx=ctx)`: a fresh one-dimensional
NDArray holding the given values (values are exact in this model; the dtype
tag records the requested cast). -/
def mxArray (values : List ℚ) (dtype : DType) (ctx : Context) : NDArray :=
  { shape := [values.length], data := values, dtype := dtype, context := ctx }

/-- `mx.nd.zeros(n)`: a fresh zero vector of length `n` with the engine
default dtype (`float32`) on the default context. -/
def ndZeros (n : Nat) : NDArray :=
  { shape := [n], data := List.replicate n 0, dtype := defaultDType,
    context := defaultContext }

/-- A numpy array as produced by `NDArray.asnumpy()`: flat values plus the
dtype inherited from the NDArray (numpy arrays carry no device). -/
structure NPArray where
  data : List ℚ
  dtype : DType
deriving DecidableEq

/-- `a.asnumpy()`. -/
def NDArray.asnumpy (a : NDArray) : NPArray := ⟨a.data, a.dtype⟩

/-- A gluon `Parameter`: its `grad_req` flag (the string `"null"` marks a
fixed, non-trainable parameter), its current value `data`, and its gradient
buffer `grad` (what `val.data().grad` reads). -/
structure Parameter where
  grad_req : String
  data : NDArray
  grad : NDArray
deriving DecidableEq

/-- `val.set_data(v)`: replace the parameter's value, leaving `grad_req` and
the gradient buffer alone. -/
def Parameter.set_data (p : Parameter) (v : NDArray) : Parameter :=
  { p with data := v }

/-- A gluon `ParameterDict`, modelled as its ordered association list of
(key, parameter) entries; `param_dict.items()` iterates it in this order.
A real gluon dict has no duplicate keys; theorems that need this carry a
`Nodup` hypothesis on the keys. -/
abbrev ParameterDict : Type := List (String × Parameter)

/-- `param_dict[key]`: dictionary lookup, `none` modelling a `KeyError`. -/
def ParameterDict.lookup (d : ParameterDict) (key : String) : Option Parameter :=
  match d with
  | [] => none
  | (k, p) :: rest => if k = key then some p else ParameterDict.lookup rest key

/-- The effect on the dictionary of `param_dict[key].set_data(v)`: the entry
(entries) stored under `key` get their value replaced in place. -/
def ParameterDict.set_data : ParameterDict → String → NDArray → ParameterDict
  | [], _, _ => []
  | (k, p) :: rest, key, v =>
    (if k = key then (k, p.set_data v) else (k, p)) ::
      ParameterDict.set_data rest key v

/-- Python exceptions surfaced by the adapter. -/
inductive PyError where
  | valueError (msg : String)
  | keyError (key : String)
  | indexError
  | shapeError
deriving DecidableEq

/-- The six parallel lists `_get_parameter_sizes` stores on `self`. -/
structure SizeLists where
  i_start : List Nat
  i_end : List Nat
  shapes : List (List Nat)
  dtypes : List DType
  contexts : List Context
  names : List String
deriving DecidableEq

/-- The `for key, val in param_dict.items()` loop of
`ParameterToArrayConverter._get_parameter_sizes`, with `i` the running
offset: parameters with `grad_req == 'null'` are skipped, every other
parameter appends its start offset, end offset, shape, dtype, context and
key. -/
def getParameterSizesLoop : List (String × Parameter) → Nat → SizeLists
  | [], _ => ⟨[], [], [], [], [], []⟩
  | (key, val) :: rest, i =>
    if val.grad_req = "null" then
      getParameterSizesLoop rest i
    else
      let data := val.data
      let r := getParameterSizesLoop rest (i + data.size)
      ⟨i :: r.i_start, (i + data.size) :: r.i_end, data.shape :: r.shapes,
       data.dtype :: r.dtypes, data.context :: r.contexts, key :: r.names⟩

/-- The state of a `ParameterToArrayConverter` instance: the captured
dictionary plus the fields `_get_parameter_sizes` and `__init__` store. -/
structure ParameterToArrayConverter where
  parameter_dict : ParameterDict
  i_start : List Nat
  i_end : List Nat
  shapes : List (List Nat)
  dtypes : List DType
  contexts : List Context
  names : List String
  array_length : Nat
deriving DecidableEq

/-- `ParameterToArrayConverter.__init__`: run `_get_parameter_sizes`, then
`self.array_length = self.i_end[-1]`.  When the dictionary has no trainable
parameter, `i_end` is empty and `self.i_end[-1]` raises `IndexError`,
modelled as `none`. -/
def ParameterToArrayConverter.init (parameter_dict : ParameterDict) :
    Option ParameterToArrayConverter :=
  let r := getParameterSizesLoop parameter_dict 0
  match r.i_end.getLast? with
  | none => none
  | some last =>
    some { parameter_dict := parameter_dict, i_start := r.i_start,
           i_end := r.i_end, shapes := r.shapes, dtypes := r.dtypes,
           contexts := r.contexts, names := r.names, array_length := last }

/-- The `for i, key in enumerate(self.names)` loop of
`set_values_from_array`: look up the parameter, build
`mx.nd.reshape(mx.nd.array(x[i_start[i]:i_end[i]], dtype, ctx), shape)` and
`set_data` it.  The final catch-all models the `IndexError` a ragged set of
bookkeeping lists would raise (never reached for a converter built by
`init`). -/
def setValuesLoop : ParameterDict → List ℚ → List String → List Nat →
    List Nat → List (List Nat) → List DType → List Context →
    Except PyError ParameterDict
  | d, _, [], _, _, _, _, _ => .ok d
  | d, x, key :: names, s :: starts, e :: ends, sh :: shs, dt :: dts,
      cx :: cxs =>
    match ParameterDict.lookup d key with
    | none => .error (.keyError key)
    | some _ =>
      let value_to_set_to := (mxArray ((x.drop s).take (e - s)) dt cx).reshape sh
      setValuesLoop (ParameterDict.set_data d key value_to_set_to) x names
        starts ends shs dts cxs
  | _, _, _ :: _, _, _, _, _, _ => .error .indexError

/-- `ParameterToArrayConverter.set_values_from_array(x)`: raise `ValueError`
when the flat vector length disagrees with `array_length`, otherwise write
every slice back through `set_data`. -/
def ParameterToArrayConverter.set_values_from_array
    (c : ParameterToArrayConverter) (x : List ℚ) :
    Except PyError ParameterToArrayConverter :=
  if x.length ≠ c.array_length then
    .error (.valueError ("Expected array to be of length " ++
      toString c.array_length ++ " but is actually length " ++
      toString x.length))
  else
    (setValuesLoop c.parameter_dict x c.names c.i_start c.i_end c.shapes
        c.dtypes c.contexts).map
      (fun d => { c with parameter_dict := d })

/-- Slice assignment `buf[s:e] = v` on the flat data of a buffer. -/
def setSliceAssign (buf : List ℚ) (s e : Nat) (v : List ℚ) : List ℚ :=
  buf.take s ++ v ++ buf.drop e

/-- The loop of `extract_parameter_values_as_array`:
`x[i_start[i]:i_end[i]] = val.data().reshape((-1,))`.  The slice assignment
checks that the flattened value matches the slice extent (a mismatch raises
inside MXNet, modelled as `shapeError`). -/
def extractValuesLoop (d : ParameterDict) : NDArray → List String →
    List Nat → List Nat → Except PyError NDArray
  | buf, [], _, _ => .ok buf
  | buf, key :: names, s :: starts, e :: ends =>
    match ParameterDict.lookup d key with
    | none => .error (.keyError key)
    | some val =>
      if val.data.data.length = e - s ∧ s ≤ e ∧ e ≤ buf.data.length then
        extractValuesLoop d { buf with data := setSliceAssign buf.data s e val.data.data }
          names starts ends
      else .error .shapeError
  | _, _ :: _, _, _ => .error .indexError

/-- `ParameterToArrayConverter.extract_parameter_values_as_array()`:
allocate `x = mx.nd.zeros(self.array_length)`, fill every slice from the
current parameter values, return `x.asnumpy()`. -/
def ParameterToArrayConverter.extract_parameter_values_as_array
    (c : ParameterToArrayConverter) : Except PyError NPArray :=
  (extractValuesLoop c.parameter_dict (ndZeros c.array_length) c.names
      c.i_start c.i_end).map NDArray.asnumpy

/-- The loop of `extract_parameter_gradients_as_array`: identical to the
values loop except that it reads `val.data().grad.reshape((-1,))`. -/
def extractGradientsLoop (d : ParameterDict) : NDArray → List String →
    List Nat → List Nat → Except PyError NDArray
  | buf, [], _, _ => .ok buf
  | buf, key :: names, s :: starts, e :: ends =>
    match ParameterDict.lookup d key with
    | none => .error (.keyError key)
    | some val =>
      if val.grad.data.length = e - s ∧ s ≤ e ∧ e ≤ buf.data.length then
        extractGradientsLoop d { buf with data := setSliceAssign buf.data s e val.grad.data }
          names starts ends
      else .error .shapeError
  | _, _ :: _, _, _ => .error .indexError

/-- `ParameterToArrayConverter.extract_parameter_gradients_as_array()`. -/
def ParameterToArrayConverter.extract_parameter_gradients_as_array
    (c : ParameterToArrayConverter) : Except PyError NPArray :=
  (extractGradientsLoop c.parameter_dict (ndZeros c.array_length) c.names
      c.i_start c.i_end).map NDArray.asnumpy

/-- Model of `scipy.optimize.fmin_l_bfgs_b` as an external black box: the
sequence of points at which it evaluates `f_df`, and the optimum point and
value it returns. -/
structure ScipyLBFGSB where
  queries : List (List ℚ)
  x_opt : List ℚ
  f_opt : ℚ

/-- The `f_df(x)` closure defined inside `BatchInferenceLoopLBFGS.run`:
install the candidate point, run the forward/backward computation (the
`infr_executor` call under `mx.autograd.record()` followed by `backward()`,
modelled as the abstract state transformer `infr_backward` that repopulates
the gradient slots, with `infr_loss` giving the scalar loss), then read the
gradients back out.  Returns (loss, gradient vector) together with the
converter holding the mutated dictionary state. -/
def f_df (infr_loss : ParameterDict → ℚ)
    (infr_backward : ParameterDict → ParameterDict)
    (c : ParameterToArrayConverter) (x : List ℚ) :
    Except PyError (ℚ × NPArray × ParameterToArrayConverter) := do
  let c1 ← c.set_values_from_array x
  let c2 : ParameterToArrayConverter :=
    { c1 with parameter_dict := infr_backward c1.parameter_dict }
  let g ← c2.extract_parameter_gradients_as_array
  pure (infr_loss c2.parameter_dict, g, c2)

/-- `BatchInferenceLoopLBFGS.run`: build the converter, take the current
values as `x0`, hand `f_df` to `fmin_l_bfgs_b` (modelled by the sequence of
points the optimizer evaluates), and ignore the returned `x_opt, f_opt, _`
triple.  The Python method returns `None`; in this state-passing model the
function returns the final state of the shared `param_dict`, which is the
state left behind by the optimizer's last `f_df` evaluation — `x_opt` is
never written back. -/
def BatchInferenceLoopLBFGS.run (infr_loss : ParameterDict → ℚ)
    (infr_backward : ParameterDict → ParameterDict)
    (scipy : ScipyLBFGSB) (param_dict : ParameterDict) :
    Except PyError ParameterDict := do
  let dict_to_array ← match ParameterToArrayConverter.init param_dict with
    | none => Except.error PyError.indexError
    | some c => Except.ok c
  let _x0 ← dict_to_array.extract_parameter_values_as_array
  let final ← scipy.queries.foldlM
    (fun c x => (f_df infr_loss infr_backward c x).map (fun r => r.2.2))
    dict_to_array
  pure final.parameter_dict

/-! ### Derived descriptions used in theorem statements -/

/-- The trainable entries of a dictionary: those whose `grad_req` is not
`'null'`, in iteration order. -/
def trainableParams (d : ParameterDict) : List (String × Parameter) :=
  d.filter (fun kv => !(kv.2.grad_req == "null"))

/-- The flattened element counts of the trainable entries, in order. -/
def trainableSizes (d : ParameterDict) : List Nat :=
  (trainableParams d).map (fun kv => kv.2.data.size)

/-- Start offsets of consecutive blocks of the given sizes, first block
starting at `i`. -/
def cumStarts (i : Nat) : List Nat → List Nat
  | [] => []
  | n :: ns => i :: cumStarts (i + n) ns

/-- End offsets of consecutive blocks of the given sizes, first block
starting at `i`. -/
def cumEnds (i : Nat) : List Nat → List Nat
  | [] => []
  | n :: ns => (i + n) :: cumEnds (i + n) ns

/-- Well-formedness of an NDArray: the element list matches the shape. -/
def NDArray.wf (a : NDArray) : Prop := a.data.length = a.size

/-- Well-formedness of a dictionary as gluon maintains it: keys are unique,
every value buffer matches its shape, and every gradient buffer has the
value's shape and matches it. -/
def ParameterDict.wf (d : ParameterDict) : Prop :=
  (d.map Prod.fst).Nodup ∧
    ∀ kv ∈ d, kv.2.data.wf ∧ kv.2.grad.wf ∧ kv.2.grad.shape = kv.2.data.shape

instance (a : NDArray) : Decidable a.wf := by
  unfold NDArray.wf; infer_instance

instance (d : ParameterDict) : Decidable d.wf := by
  unfold ParameterDict.wf; infer_instance

/-- Reading a parameter's gradient slot as if it were its value. -/
def Parameter.grad_as_data (p : Parameter) : Parameter :=
  { p with data := p.grad }

/-- The dictionary in which every parameter's value is replaced by its
gradient (used to state that gradient extraction is value extraction over
the gradient slots). -/
def ParameterDict.grad_view (d : ParameterDict) : ParameterDict :=
  d.map (fun kv => (kv.1, kv.2.grad_as_data))

/-- Single-list form of the `set_values_from_array` loop: the six parallel
bookkeeping lists of a converter built by `init` are all projections of the
trainable entry list, and the running offset advances by each entry's size.
`setValuesLoop_canon` proves this form equal to the translated loop. -/
def setCanon : ParameterDict → List ℚ → List (String × Parameter) → Nat →
    Except PyError ParameterDict
  | d, _, [], _ => .ok d
  | d, x, (key, p) :: rest, i =>
    match ParameterDict.lookup d key with
    | none => .error (.keyError key)
    | some _ =>
      setCanon (ParameterDict.set_data d key
          ((mxArray ((x.drop i).take p.data.size) p.data.dtype
            p.data.context).reshape p.data.shape))
        x rest (i + p.data.size)

/-- Single-list form of the `extract_parameter_values_as_array` loop;
`extractValuesLoop_canon` proves it equal to the translated loop. -/
def extractCanon (d : ParameterDict) : NDArray → List (String × Parameter) →
    Nat → Except PyError NDArray
  | buf, [], _ => .ok buf
  | buf, (key, p) :: rest, i =>
    match ParameterDict.lookup d key with
    | none => .error (.keyError key)
    | some val =>
      if val.data.data.length = p.data.size ∧
          i + p.data.size ≤ buf.data.length then
        extractCanon d
          { buf with data := buf.data.take i ++ val.data.data ++
              buf.data.drop (i + p.data.size) }
          rest (i + p.data.size)
      else .error .shapeError

/-- After a successful write of the flat vector `x`, the dictionary holds,
for each trainable entry in turn, a parameter whose flat value is the slice
of `x` at that entry's offset range. -/
def writtenView (x : List ℚ) (d : ParameterDict) :
    List (String × Parameter) → Nat → Prop
  | [], _ => True
  | (key, p) :: rest, i =>
    (∃ q, ParameterDict.lookup d key = some q ∧
        q.data.data = (x.drop i).take p.data.size) ∧
      writtenView x d rest (i + p.data.size)

/-- The dictionary state an extraction loop reads: entry by entry, the
lookup succeeds and yields flat values `v` of the recorded size. -/
def extractView (d : ParameterDict) :
    List (String × Parameter) → List (List ℚ) → Prop
  | [], [] => True
  | (key, p) :: rest, v :: vs =>
    (∃ q, ParameterDict.lookup d key = some q ∧ q.data.data = v ∧
        v.length = p.data.size) ∧ extractView d rest vs
  | _, _ => False

/-- The consecutive slices of `x` of the given sizes starting at `i`. -/
def sliceList (x : List ℚ) : Nat → List Nat → List (List ℚ)
  | _, [] => []
  | i, n :: ns => (x.drop i).take n :: sliceList x (i + n) ns

/-! ### The concrete scenario of the spec's end-to-end test -/

/-- Parameter `a`: shape (2,), trainable, initial value [10, 20]. -/
def paramA : Parameter :=
  { grad_req := "write",
    data := ⟨[2], [10, 20], DType.float32, Context.cpu 0⟩,
    grad := ⟨[2], [0, 0], DType.float32, Context.cpu 0⟩ }

/-- Parameter `b`: shape (1,1), trainable, initial value [[30]]. -/
def paramB : Parameter :=
  { grad_req := "write",
    data := ⟨[1, 1], [30], DType.float32, Context.cpu 0⟩,
    grad := ⟨[1, 1], [0], DType.float32, Context.cpu 0⟩ }

/-- Parameter `c`: shape (3,), fixed (`grad_req = 'null'`). -/
def paramC : Parameter :=
  { grad_req := "null",
    data := ⟨[3], [7, 8, 9], DType.float32, Context.cpu 0⟩,
    grad := ⟨[3], [0, 0, 0], DType.float32, Context.cpu 0⟩ }

/-- The scenario dictionary {a: (2,) trainable, b: (1,1) trainable,
c: (3,) fixed}. -/
def scenarioDict : ParameterDict :=
  [("a", paramA), ("b", paramB), ("c", paramC)]

/-- The converter `__init__` builds on `scenarioDict`. -/
def scenarioConv : ParameterToArrayConverter :=
  { parameter_dict := scenarioDict,
    i_start := [0, 2],
    i_end := [2, 3],
    shapes := [[2], [1, 1]],
    dtypes := [DType.float32, DType.float32],
    contexts := [Context.cpu 0, Context.cpu 0],
    names := ["a", "b"],
    array_length := 3 }

/-- The dictionary state after writing the flat vector [1, 2, 3] through
`scenarioConv`. -/
def scenarioDictAfter : ParameterDict :=
  [("a", { paramA with data := ⟨[2], [1, 2], DType.float32, Context.cpu 0⟩ }),
   ("b", { paramB with data := ⟨[1, 1], [3], DType.float32, Context.cpu 0⟩ }),
   ("c", paramC)]

/-- The converter state after `scenarioConv.set_values_from_array [1, 2, 3]`. -/
def scenarioConvAfter : ParameterToArrayConverter :=
  { scenarioConv with parameter_dict := scenarioDictAfter }

/-- The part of `BatchInferenceLoopLBFGS.run` that determines the final
dictionary state: build the converter, read `x0`, evaluate `f_df` at each
query point in order.  It never sees the optimizer's returned
`x_opt, f_opt` pair; `run_ignores_x_opt` proves `run` equal to it. -/
def runQueriesOnly (infr_loss : ParameterDict → ℚ)
    (infr_backward : ParameterDict → ParameterDict)
    (queries : List (List ℚ)) (param_dict : ParameterDict) :
    Except PyError ParameterDict := do
  let dict_to_array ← match ParameterToArrayConverter.init param_dict with
    | none => Except.error PyError.indexError
    | some c => Except.ok c
  let _x0 ← dict_to_array.extract_parameter_values_as_array
  let final ← queries.foldlM
    (fun c x => (f_df infr_loss infr_backward c x).map (fun r => r.2.2))
    dict_to_array
  pure final.parameter_dict

/-! ### Dictionary lookup lemmas -/

theorem lookup_set_data (d : ParameterDict) (key k : String) (v : NDArray) :
    ParameterDict.lookup (ParameterDict.set_data d key v) k =
      if k = key then (ParameterDict.lookup d k).map (fun p => p.set_data v)
      else ParameterDict.lookup d k := by
  induction d with
  | nil => simp [ParameterDict.set_data, ParameterDict.lookup]
  | cons kv rest ih =>
    obtain ⟨k0, p0⟩ := kv
    simp only [ParameterDict.set_data]
    by_cases h0 : k0 = key
    · rw [if_pos h0]
      by_cases h1 : k0 = k
      · subst h1
        rw [h0] at ih ⊢
        simp [ParameterDict.lookup, ih]
      · simp only [ParameterDict.lookup, if_neg h1, ih]
    · rw [if_neg h0]
      by_cases h1 : k0 = k
      · subst h1
        simp [ParameterDict.lookup, if_neg h0]
      · simp only [ParameterDict.lookup, if_neg h1, ih]

theorem lookup_isSome_of_mem (d : ParameterDict) (kv : String × Parameter)
    (h : kv ∈ d) : (ParameterDict.lookup d kv.1).isSome := by
  induction d with
  | nil => simp at h
  | cons hd rest ih =>
    rw [List.mem_cons] at h
    rcases h with h | h
    · subst h; simp [ParameterDict.lookup]
    · by_cases h0 : hd.1 = kv.1 <;>
        simp [ParameterDict.lookup, h0, ih h]

theorem lookup_eq_of_mem_nodup (d : ParameterDict) (kv : String × Parameter)
    (hnd : (d.map Prod.fst).Nodup) (h : kv ∈ d) :
    ParameterDict.lookup d kv.1 = some kv.2 := by
  induction d with
  | nil => simp at h
  | cons hd rest ih =>
    simp only [List.map_cons, List.nodup_cons] at hnd
    rw [List.mem_cons] at h
    rcases h with h | h
    · subst h; simp [ParameterDict.lookup]
    · have hne : hd.1 ≠ kv.1 := by
        intro he
        exact hnd.1 (he ▸ List.mem_map_of_mem Prod.fst h)
      simp [ParameterDict.lookup, hne, ih hnd.2 h]

theorem entry_eq_of_fst_eq (d : ParameterDict)
    (hnd : (d.map Prod.fst).Nodup) (a b : String × Parameter)
    (ha : a ∈ d) (hb : b ∈ d) (hfst : a.1 = b.1) : a = b := by
  have h1 := lookup_eq_of_mem_nodup d a hnd ha
  have h2 := lookup_eq_of_mem_nodup d b hnd hb
  rw [hfst, h2] at h1
  exact Prod.ext hfst (Option.some.inj h1).symm

/-! ### Characterization of `_get_parameter_sizes` and `__init__` -/

theorem getParameterSizesLoop_eq (l : List (String × Parameter)) (i : Nat) :
    getParameterSizesLoop l i =
      ⟨cumStarts i ((trainableParams l).map fun kv => kv.2.data.size),
       cumEnds i ((trainableParams l).map fun kv => kv.2.data.size),
       (trainableParams l).map (fun kv => kv.2.data.shape),
       (trainableParams l).map (fun kv => kv.2.data.dtype),
       (trainableParams l).map (fun kv => kv.2.data.context),
       (trainableParams l).map Prod.fst⟩ := by
  induction l generalizing i with
  | nil => rfl
  | cons kv rest ih =>
    obtain ⟨key, val⟩ := kv
    by_cases h : val.grad_req = "null"
    · simp [getParameterSizesLoop, trainableParams, List.filter_cons, h, ih]
    · simp [getParameterSizesLoop, trainableParams, List.filter_cons, h, ih,
        cumStarts, cumEnds]

theorem cumStarts_length (i : Nat) (ns : List Nat) :
    (cumStarts i ns).length = ns.length := by
  induction ns generalizing i with
  | nil => rfl
  | cons n ns' ih => simp [cumStarts, ih]

theorem cumEnds_length (i : Nat) (ns : List Nat) :
    (cumEnds i ns).length = ns.length := by
  induction ns generalizing i with
  | nil => rfl
  | cons n ns' ih => simp [cumEnds, ih]

theorem cumEnds_getLast (i : Nat) (ns : List Nat) (h : ns ≠ []) :
    (cumEnds i ns).getLast? = some (i + ns.sum) := by
  induction ns generalizing i with
  | nil => exact absurd rfl h
  | cons n ns' ih =>
    cases ns' with
    | nil => simp [cumEnds]
    | cons m rest =>
      have ih' := ih (i + n) (by simp)
      simp only [cumEnds] at ih' ⊢
      rw [List.getLast?_cons_cons, ih']
      simp [Nat.add_assoc]

theorem cumEnds_eq_nil_iff (i : Nat) (ns : List Nat) :
    cumEnds i ns = [] ↔ ns = [] := by
  cases ns <;> simp [cumEnds]

theorem cumStarts_getD_zero (i : Nat) (ns : List Nat) (h : ns ≠ []) :
    (cumStarts i ns).getD 0 0 = i := by
  cases ns with
  | nil => exact absurd rfl h
  | cons n ns' => simp [cumStarts]

theorem cumEnds_getD (i : Nat) (ns : List Nat) :
    ∀ j, j < ns.length →
      (cumEnds i ns).getD j 0 = (cumStarts i ns).getD j 0 + ns.getD j 0 := by
  induction ns generalizing i with
  | nil => intro j hj; simp at hj
  | cons n ns' ih =>
    intro j hj
    cases j with
    | zero => simp [cumEnds, cumStarts]
    | succ j' =>
      simp only [cumEnds, cumStarts, List.getD_cons_succ]
      exact ih (i + n) j' (Nat.succ_lt_succ_iff.mp hj)

theorem cumStarts_getD_succ (i : Nat) (ns : List Nat) :
    ∀ j, j + 1 < ns.length →
      (cumStarts i ns).getD (j + 1) 0 = (cumEnds i ns).getD j 0 := by
  induction ns generalizing i with
  | nil => intro j hj; simp at hj
  | cons n ns' ih =>
    intro j hj
    cases j with
    | zero =>
      cases ns' with
      | nil => simp at hj
      | cons m rest => simp [cumStarts, cumEnds]
    | succ j' =>
      simp only [cumStarts, cumEnds, List.getD_cons_succ]
      exact ih (i + n) j' (Nat.succ_lt_succ_iff.mp hj)

theorem sizes_getD_eq_shapes_prod (t : List (String × Parameter)) :
    ∀ j, j < t.length →
      (t.map fun kv => kv.2.data.size).getD j 0 =
        ((t.map fun kv => kv.2.data.shape).getD j []).prod := by
  induction t with
  | nil => intro j hj; simp at hj
  | cons kv rest ih =>
    intro j hj
    cases j with
    | zero => simp [NDArray.size]
    | succ j' =>
      simp only [List.map_cons, List.getD_cons_succ]
      exact ih j' (Nat.succ_lt_succ_iff.mp (by simpa using hj))

theorem init_spec (d : ParameterDict) (c : ParameterToArrayConverter)
    (h : ParameterToArrayConverter.init d = some c) :
    c.parameter_dict = d ∧
    c.i_start = cumStarts 0 ((trainableParams d).map fun kv => kv.2.data.size) ∧
    c.i_end = cumEnds 0 ((trainableParams d).map fun kv => kv.2.data.size) ∧
    c.shapes = (trainableParams d).map (fun kv => kv.2.data.shape) ∧
    c.dtypes = (trainableParams d).map (fun kv => kv.2.data.dtype) ∧
    c.contexts = (trainableParams d).map (fun kv => kv.2.data.context) ∧
    c.names = (trainableParams d).map Prod.fst ∧
    c.array_length = ((trainableParams d).map fun kv => kv.2.data.size).sum ∧
    trainableParams d ≠ [] := by
  unfold ParameterToArrayConverter.init at h
  rw [getParameterSizesLoop_eq] at h
  dsimp only at h
  have hne : trainableParams d ≠ [] := by
    intro hnil
    rw [hnil] at h
    simp [cumEnds] at h
  have hmap : ((trainableParams d).map fun kv => kv.2.data.size) ≠ [] := by
    simpa using hne
  rw [cumEnds_getLast 0 _ hmap] at h
  simp only [Option.some.injEq] at h
  subst h
  refine ⟨rfl, rfl, rfl, rfl, rfl, rfl, rfl, by simp, hne⟩

theorem init_isSome_iff (d : ParameterDict) :
    (ParameterToArrayConverter.init d).isSome ↔
      ∃ kv ∈ d, kv.2.grad_req ≠ "null" := by
  unfold ParameterToArrayConverter.init
  rw [getParameterSizesLoop_eq]
  dsimp only
  cases hl : (cumEnds 0 ((trainableParams d).map fun kv => kv.2.data.size)).getLast? with
  | none =>
    rw [List.getLast?_eq_none_iff, cumEnds_eq_nil_iff, List.map_eq_nil_iff] at hl
    simp only [Option.isSome_none, Bool.false_eq_true, false_iff]
    intro hex
    rcases hex with ⟨kv, hmem, hreq⟩
    have hkv : kv ∈ trainableParams d := by
      simp [trainableParams, List.mem_filter, hmem, hreq]
    rw [hl] at hkv
    simp at hkv
  | some last =>
    simp only [Option.isSome_some, true_iff]
    have hne : trainableParams d ≠ [] := by
      intro hnil
      rw [hnil] at hl
      simp [cumEnds] at hl
    rcases List.exists_mem_of_ne_nil _ hne with ⟨kv, hkv⟩
    refine ⟨kv, List.mem_of_mem_filter hkv, ?_⟩
    have hb := List.of_mem_filter hkv
    simpa using hb

/-! ### Fusion of the translated loops with their single-list forms -/

theorem setValuesLoop_canon (t : List (String × Parameter)) :
    ∀ (i : Nat) (d : ParameterDict) (x : List ℚ),
      setValuesLoop d x (t.map Prod.fst)
        (cumStarts i (t.map fun kv => kv.2.data.size))
        (cumEnds i (t.map fun kv => kv.2.data.size))
        (t.map fun kv => kv.2.data.shape)
        (t.map fun kv => kv.2.data.dtype)
        (t.map fun kv => kv.2.data.context) = setCanon d x t i := by
  induction t with
  | nil => intro i d x; rfl
  | cons kv rest ih =>
    intro i d x
    obtain ⟨key, p⟩ := kv
    simp only [List.map_cons, cumStarts, cumEnds, setValuesLoop, setCanon]
    cases ParameterDict.lookup d key with
    | none => rfl
    | some q =>
      dsimp only
      rw [Nat.add_sub_cancel_left]
      exact ih (i + p.data.size) _ x

theorem extractValuesLoop_canon (t : List (String × Parameter)) :
    ∀ (i : Nat) (d : ParameterDict) (buf : NDArray),
      extractValuesLoop d buf (t.map Prod.fst)
        (cumStarts i (t.map fun kv => kv.2.data.size))
        (cumEnds i (t.map fun kv => kv.2.data.size)) =
      extractCanon d buf t i := by
  induction t with
  | nil => intro i d buf; rfl
  | cons kv rest ih =>
    intro i d buf
    obtain ⟨key, p⟩ := kv
    simp only [List.map_cons, cumStarts, cumEnds, extractValuesLoop,
      extractCanon]
    cases ParameterDict.lookup d key with
    | none => rfl
    | some q =>
      dsimp only
      rw [Nat.add_sub_cancel_left]
      simp only [Nat.le_add_right, true_and, setSliceAssign]
      split
      · exact ih (i + p.data.size) d _
      · rfl

/-! ### Correctness of the canonical write loop -/

theorem setCanon_ok (t : List (String × Parameter)) :
    ∀ (i : Nat) (d : ParameterDict) (x : List ℚ),
      (t.map Prod.fst).Nodup →
      (∀ kv ∈ t, (ParameterDict.lookup d kv.1).isSome) →
      ∃ d1, setCanon d x t i = .ok d1 ∧
        (∀ k, k ∉ t.map Prod.fst →
          ParameterDict.lookup d1 k = ParameterDict.lookup d k) ∧
        writtenView x d1 t i := by
  induction t with
  | nil =>
    intro i d x _ _
    exact ⟨d, rfl, fun k _ => rfl, trivial⟩
  | cons kv rest ih =>
    intro i d x hnd hk
    obtain ⟨key, p⟩ := kv
    have hkey : (ParameterDict.lookup d key).isSome :=
      hk (key, p) (List.mem_cons_self _ _)
    rcases Option.isSome_iff_exists.mp hkey with ⟨q, hq⟩
    simp only [List.map_cons, List.nodup_cons] at hnd
    have hk1 : ∀ kv2 ∈ rest,
        (ParameterDict.lookup (ParameterDict.set_data d key
          ((mxArray ((x.drop i).take p.data.size) p.data.dtype
            p.data.context).reshape p.data.shape)) kv2.1).isSome := by
      intro kv2 hmem
      rw [lookup_set_data]
      by_cases he : kv2.1 = key
      · rw [if_pos he, he, hq]
        rfl
      · rw [if_neg he]
        exact hk kv2 (List.mem_cons_of_mem _ hmem)
    rcases ih (i + p.data.size) _ x hnd.2 hk1 with ⟨d1, hrun, hpres, hview⟩
    refine ⟨d1, ?_, ?_, ?_⟩
    · simp only [setCanon, hq]
      exact hrun
    · intro k hkmem
      simp only [List.map_cons, List.mem_cons, not_or] at hkmem
      rw [hpres k hkmem.2, lookup_set_data, if_neg hkmem.1]
    · refine ⟨⟨q.set_data ((mxArray ((x.drop i).take p.data.size)
        p.data.dtype p.data.context).reshape p.data.shape), ?_, rfl⟩, hview⟩
      rw [hpres key hnd.1, lookup_set_data, if_pos rfl, hq]
      rfl

/-! ### Correctness of the canonical read loop -/

theorem extractCanon_spec (t : List (String × Parameter)) :
    ∀ (vs : List (List ℚ)) (i : Nat) (d : ParameterDict) (buf : NDArray),
      extractView d t vs →
      i + (t.map fun kv => kv.2.data.size).sum ≤ buf.data.length →
      extractCanon d buf t i =
        .ok { buf with data := buf.data.take i ++ vs.flatten ++
          buf.data.drop (i + (t.map fun kv => kv.2.data.size).sum) } := by
  induction t with
  | nil =>
    intro vs i d buf hview hlen
    cases vs with
    | nil =>
      cases buf with
      | mk shape data dtype context =>
        simp [extractCanon, List.take_append_drop]
    | cons v vs' => exact absurd hview (by simp [extractView])
  | cons kv rest ih =>
    intro vs i d buf hview hlen
    obtain ⟨key, p⟩ := kv
    cases vs with
    | nil => exact absurd hview (by simp [extractView])
    | cons v vs' =>
      obtain ⟨⟨q, hq, hqd, hvlen⟩, hviewrest⟩ := hview
      have hql : q.data.data.length = p.data.size := by rw [hqd]; exact hvlen
      have hrs : i + (((key, p) :: rest).map fun kv => kv.2.data.size).sum =
          i + p.data.size + ((rest).map fun kv => kv.2.data.size).sum := by
        simp [Nat.add_assoc]
      have hszle : i + p.data.size ≤ buf.data.length := by
        refine le_trans ?_ hlen
        simp only [List.map_cons, List.sum_cons]
        omega
      have hile : i ≤ buf.data.length := le_trans (Nat.le_add_right _ _) hszle
      have htl : (buf.data.take i).length = i := by
        simp [List.length_take]
        omega
      have hhl : (buf.data.take i ++ q.data.data).length = i + p.data.size := by
        simp [htl, hql]
      simp only [extractCanon, hq]
      rw [if_pos ⟨hql, hszle⟩]
      have hlen1 : (buf.data.take i ++ q.data.data ++
          buf.data.drop (i + p.data.size)).length = buf.data.length := by
        simp [htl, hql, List.length_drop]
        omega
      have ihres := ih vs' (i + p.data.size) d
        { buf with data := buf.data.take i ++ q.data.data ++
            buf.data.drop (i + p.data.size) } hviewrest
        (by
          show i + p.data.size + _ ≤ (buf.data.take i ++ q.data.data ++
            buf.data.drop (i + p.data.size)).length
          rw [hlen1]
          calc i + p.data.size + ((rest).map fun kv => kv.2.data.size).sum
              = i + (((key, p) :: rest).map fun kv => kv.2.data.size).sum := hrs.symm
            _ ≤ buf.data.length := hlen)
      have hdA : (buf.data.take i ++ q.data.data ++
          buf.data.drop (i + p.data.size)).take (i + p.data.size) =
          buf.data.take i ++ q.data.data := by
        rw [List.append_assoc, ← List.append_assoc]
        exact List.take_left' hhl
      have hdB : ∀ m, (buf.data.take i ++ q.data.data ++
          buf.data.drop (i + p.data.size)).drop (i + p.data.size + m) =
          buf.data.drop (i + p.data.size + m) := by
        intro m
        rw [← List.drop_drop m (i + p.data.size), List.drop_left' hhl,
          List.drop_drop]
      rw [ihres]
      dsimp only
      rw [hdA, hdB, hqd, ← hrs]
      simp [List.flatten_cons, List.append_assoc]

theorem sliceList_flatten (x : List ℚ) (ns : List Nat) :
    ∀ i, (sliceList x i ns).flatten = (x.drop i).take ns.sum := by
  induction ns with
  | nil => intro i; simp [sliceList]
  | cons n ns' ih =>
    intro i
    simp only [sliceList, List.flatten_cons, List.sum_cons, ih (i + n)]
    rw [List.take_add]
    have hdd : (x.drop i).drop n = x.drop (i + n) := List.drop_drop n i x
    rw [hdd]

theorem writtenView_extractView (t : List (String × Parameter)) :
    ∀ (i : Nat) (x : List ℚ) (d : ParameterDict),
      writtenView x d t i →
      i + (t.map fun kv => kv.2.data.size).sum ≤ x.length →
      extractView d t (sliceList x i (t.map fun kv => kv.2.data.size)) := by
  induction t with
  | nil =>
    intro i x d _ _
    simp [sliceList, extractView]
  | cons kv rest ih =>
    intro i x d hview hlen
    obtain ⟨key, p⟩ := kv
    obtain ⟨⟨q, hq, hqd⟩, hrest⟩ := hview
    have hszle : i + p.data.size ≤ x.length := by
      refine le_trans ?_ hlen
      simp only [List.map_cons, List.sum_cons]
      omega
    refine ⟨⟨q, hq, hqd, ?_⟩, ?_⟩
    · simp only [List.length_take, List.length_drop]
      omega
    · refine ih (i + p.data.size) x d hrest ?_
      refine le_trans (le_of_eq ?_) hlen
      simp [Nat.add_assoc]

theorem extractView_self (t : List (String × Parameter)) (d : ParameterDict)
    (h : ∀ kv ∈ t, ParameterDict.lookup d kv.1 = some kv.2 ∧
      kv.2.data.data.length = kv.2.data.size) :
    extractView d t (t.map fun kv => kv.2.data.data) := by
  induction t with
  | nil => simp [extractView]
  | cons kv rest ih =>
    obtain ⟨key, p⟩ := kv
    obtain ⟨hq, hlen⟩ := h (key, p) (List.mem_cons_self _ _)
    exact ⟨⟨p, hq, rfl, hlen⟩,
      ih fun kv2 hm => h kv2 (List.mem_cons_of_mem _ hm)⟩

/-! ### The raw write loop only touches the listed names -/

theorem setValuesLoop_lookup_preserved (ns : List String) :
    ∀ (ss es : List Nat) (shs : List (List Nat)) (dts : List DType)
      (cxs : List Context) (d d1 : ParameterDict) (x : List ℚ) (k : String),
      setValuesLoop d x ns ss es shs dts cxs = .ok d1 → k ∉ ns →
      ParameterDict.lookup d1 k = ParameterDict.lookup d k := by
  induction ns with
  | nil =>
    intro ss es shs dts cxs d d1 x k hrun _
    simp only [setValuesLoop, Except.ok.injEq] at hrun
    rw [hrun]
  | cons key ns' ih =>
    intro ss es shs dts cxs d d1 x k hrun hk
    cases ss with
    | nil => simp [setValuesLoop] at hrun
    | cons s ss' =>
      cases es with
      | nil => simp [setValuesLoop] at hrun
      | cons e es' =>
        cases shs with
        | nil => simp [setValuesLoop] at hrun
        | cons sh shs' =>
          cases dts with
          | nil => simp [setValuesLoop] at hrun
          | cons dt dts' =>
            cases cxs with
            | nil => simp [setValuesLoop] at hrun
            | cons cx cxs' =>
              simp only [setValuesLoop] at hrun
              cases hq : ParameterDict.lookup d key with
              | none => rw [hq] at hrun; simp at hrun
              | some q =>
                rw [hq] at hrun
                dsimp only at hrun
                simp only [List.mem_cons, not_or] at hk
                rw [ih _ _ _ _ _ _ _ _ _ hrun hk.2, lookup_set_data,
                  if_neg hk.1]

/-! ### Gradient extraction is value extraction over the gradient slots -/

theorem lookup_grad_view (d : ParameterDict) (k : String) :
    ParameterDict.lookup (ParameterDict.grad_view d) k =
      (ParameterDict.lookup d k).map Parameter.grad_as_data := by
  induction d with
  | nil => rfl
  | cons kv rest ih =>
    obtain ⟨k0, p0⟩ := kv
    by_cases h : k0 = k <;>
      simp [ParameterDict.grad_view, ParameterDict.lookup, h,
        ← ih, ParameterDict.grad_view]

theorem gradientsLoop_eq (ns : List String) :
    ∀ (ss es : List Nat) (d : ParameterDict) (buf : NDArray),
      extractGradientsLoop d buf ns ss es =
        extractValuesLoop (ParameterDict.grad_view d) buf ns ss es := by
  induction ns with
  | nil => intro ss es d buf; rfl
  | cons key ns' ih =>
    intro ss es d buf
    cases ss with
    | nil => rfl
    | cons s ss' =>
      cases es with
      | nil => rfl
      | cons e es' =>
        simp only [extractGradientsLoop, extractValuesLoop, lookup_grad_view]
        cases ParameterDict.lookup d key with
        | none => rfl
        | some q =>
          dsimp only [Option.map, Parameter.grad_as_data]
          split
          · exact ih ss' es' d _
          · rfl

/-! ### The extraction buffer keeps its dtype and context -/

theorem extractValuesLoop_meta (ns : List String) :
    ∀ (ss es : List Nat) (d : ParameterDict) (buf r : NDArray),
      extractValuesLoop d buf ns ss es = .ok r →
      r.dtype = buf.dtype ∧ r.context = buf.context := by
  induction ns with
  | nil =>
    intro ss es d buf r h
    simp only [extractValuesLoop, Except.ok.injEq] at h
    rw [← h]
    exact ⟨rfl, rfl⟩
  | cons key ns' ih =>
    intro ss es d buf r h
    cases ss with
    | nil => simp [extractValuesLoop] at h
    | cons s ss' =>
      cases es with
      | nil => simp [extractValuesLoop] at h
      | cons e es' =>
        simp only [extractValuesLoop] at h
        cases hq : ParameterDict.lookup d key with
        | none => rw [hq] at h; simp at h
        | some q =>
          rw [hq] at h
          dsimp only at h
          by_cases hc : q.data.data.length = e - s ∧ s ≤ e ∧
              e ≤ buf.data.length
          · rw [if_pos hc] at h
            have hm := ih ss' es' d _ r h
            exact hm
          · rw [if_neg hc] at h
            simp at h

theorem trainable_keys_nodup (d : ParameterDict)
    (hnd : (d.map Prod.fst).Nodup) :
    ((trainableParams d).map Prod.fst).Nodup :=
  List.Nodup.sublist
    (List.Sublist.map Prod.fst (List.filter_sublist d)) hnd

/-! ### Claim theorems -/

/-- C1: round-trip law.  For every adapter built by
`ParameterToArrayConverter.__init__` from a parameter collection (with
unique keys, as a Python dict guarantees) and every flat vector `x` of
length `array_length`, `set_values_from_array(x)` succeeds and a subsequent
`extract_parameter_values_as_array()` returns exactly `x` (as a `float32`
numpy vector).  Element values are exact in this model. -/
theorem set_then_extract_roundtrip (d : ParameterDict)
    (c : ParameterToArrayConverter)
    (hinit : ParameterToArrayConverter.init d = some c)
    (hnd : (d.map Prod.fst).Nodup)
    (x : List ℚ) (hx : x.length = c.array_length) :
    ∃ c1, c.set_values_from_array x = .ok c1 ∧
      c1.extract_parameter_values_as_array = .ok ⟨x, defaultDType⟩ := by
  obtain ⟨hpd, hs, he, hsh, hdt, hcx, hnm, hlenq, hne⟩ := init_spec d c hinit
  have hndt : ((trainableParams d).map Prod.fst).Nodup :=
    trainable_keys_nodup d hnd
  have hk : ∀ kv ∈ trainableParams d, (ParameterDict.lookup d kv.1).isSome :=
    fun kv hm => lookup_isSome_of_mem d kv (List.mem_of_mem_filter hm)
  obtain ⟨d1, hrun, hpres, hview⟩ :=
    setCanon_ok (trainableParams d) 0 d x hndt hk
  have hsum : ((trainableParams d).map fun kv => kv.2.data.size).sum =
      c.array_length := hlenq.symm
  have hset : c.set_values_from_array x =
      .ok { c with parameter_dict := d1 } := by
    unfold ParameterToArrayConverter.set_values_from_array
    rw [if_neg (show ¬(x.length ≠ c.array_length) from fun hcc => hcc hx)]
    rw [hpd, hnm, hs, he, hsh, hdt, hcx,
      setValuesLoop_canon (trainableParams d) 0 d x, hrun]
    rfl
  refine ⟨_, hset, ?_⟩
  unfold ParameterToArrayConverter.extract_parameter_values_as_array
  dsimp only
  rw [hnm, hs, he,
    extractValuesLoop_canon (trainableParams d) 0 d1 (ndZeros c.array_length)]
  have hview2 : extractView d1 (trainableParams d)
      (sliceList x 0 ((trainableParams d).map fun kv => kv.2.data.size)) := by
    refine writtenView_extractView (trainableParams d) 0 x d1 hview ?_
    rw [hsum, ← hx]
    omega
  have hres := extractCanon_spec (trainableParams d) _ 0 d1
    (ndZeros c.array_length) hview2
    (by
      show 0 + _ ≤ (List.replicate c.array_length (0 : ℚ)).length
      rw [List.length_replicate, hsum]
      omega)
  rw [hres]
  have hdata : (ndZeros c.array_length).data.take 0 ++
      (sliceList x 0
        ((trainableParams d).map fun kv => kv.2.data.size)).flatten ++
      (ndZeros c.array_length).data.drop
        (0 + ((trainableParams d).map fun kv => kv.2.data.size).sum) = x := by
    rw [sliceList_flatten]
    simp only [List.take_zero, List.drop_zero, Nat.zero_add, List.nil_append]
    rw [hsum, ← hx, List.take_length]
    have hz : (ndZeros x.length).data.drop x.length = [] := by
      rw [List.drop_eq_nil_iff]
      simp [ndZeros]
    rw [hz, List.append_nil]
  rw [hdata]
  rfl

/-- C1 witness: the round trip at the concrete scenario collection with the
flat vector [1, 2, 3]. -/
theorem set_then_extract_roundtrip_witness :
    ∃ c1, scenarioConv.set_values_from_array [1, 2, 3] = .ok c1 ∧
      c1.extract_parameter_values_as_array = .ok ⟨[1, 2, 3], defaultDType⟩ :=
  set_then_extract_roundtrip scenarioDict scenarioConv (by decide) (by decide)
    [1, 2, 3] (by decide)

/-- C2: for every adapter and every flat vector whose length differs from
`array_length`, `set_values_from_array` raises `ValueError` with a message
reporting the expected and the actual length; the check precedes the write
loop, so no parameter is written (the function returns only the error). -/
theorem set_values_length_mismatch (c : ParameterToArrayConverter)
    (x : List ℚ) (h : x.length ≠ c.array_length) :
    c.set_values_from_array x = .error (.valueError
      ("Expected array to be of length " ++ toString c.array_length ++
        " but is actually length " ++ toString x.length)) := by
  unfold ParameterToArrayConverter.set_values_from_array
  rw [if_pos h]

/-- C2 witness: the scenario adapter (`array_length = 3`) rejects vectors of
length 2 and 4 with the exact formatted message. -/
theorem set_values_length_mismatch_witness :
    scenarioConv.set_values_from_array [1, 2] = .error (.valueError
      "Expected array to be of length 3 but is actually length 2") ∧
    scenarioConv.set_values_from_array [1, 2, 3, 4] = .error (.valueError
      "Expected array to be of length 3 but is actually length 4") :=
  ⟨(set_values_length_mismatch scenarioConv [1, 2] (by decide)).trans
      (by decide),
   (set_values_length_mismatch scenarioConv [1, 2, 3, 4] (by decide)).trans
      (by decide)⟩

/-- C3 counterexample: the claim says adapter construction has no error
conditions and an all-fixed or empty collection yields `total_length = 0`.
In the code `self.array_length = self.i_end[-1]` indexes an empty list in
exactly those cases, so `__init__` raises `IndexError` (modelled `none`)
for the empty collection and for a collection whose only parameter is
fixed. -/
theorem init_no_trainable_fails :
    ParameterToArrayConverter.init [] = none ∧
    ParameterToArrayConverter.init [("c", paramC)] = none := by decide

/-- C3 amended: construction succeeds exactly when the collection contains
at least one trainable parameter; with no trainable parameters (empty or
all-fixed collection) it fails with `IndexError` instead of producing a
zero-length adapter. -/
theorem init_succeeds_iff_trainable (d : ParameterDict) :
    (ParameterToArrayConverter.init d).isSome ↔
      ∃ kv ∈ d, kv.2.grad_req ≠ "null" :=
  init_isSome_iff d

/-- C4: for a collection whose trainable entries have shapes s_1..s_k in
iteration order, `array_length` is the sum of the products of the shapes,
the recorded shapes are exactly those shapes in order, the offset ranges
are contiguous half-open intervals starting at 0, and each range's extent
is the flattened element count of its shape. -/
theorem converter_layout (d : ParameterDict) (c : ParameterToArrayConverter)
    (h : ParameterToArrayConverter.init d = some c) :
    c.array_length =
      ((trainableParams d).map fun kv => kv.2.data.shape.prod).sum ∧
    c.shapes = (trainableParams d).map (fun kv => kv.2.data.shape) ∧
    c.i_start.length = (trainableParams d).length ∧
    c.i_end.length = (trainableParams d).length ∧
    c.i_start.getD 0 0 = 0 ∧
    (∀ j, j < (trainableParams d).length →
      c.i_end.getD j 0 = c.i_start.getD j 0 + (c.shapes.getD j []).prod) ∧
    (∀ j, j + 1 < (trainableParams d).length →
      c.i_start.getD (j + 1) 0 = c.i_end.getD j 0) := by
  obtain ⟨hpd, hs, he, hsh, hdt, hcx, hnm, hlen, hne⟩ := init_spec d c h
  have hmapne : ((trainableParams d).map fun kv => kv.2.data.size) ≠ [] := by
    simpa using hne
  refine ⟨hlen, hsh, ?_, ?_, ?_, ?_, ?_⟩
  · rw [hs, cumStarts_length]
    simp
  · rw [he, cumEnds_length]
    simp
  · rw [hs]
    exact cumStarts_getD_zero 0 _ hmapne
  · intro j hj
    rw [hs, he, hsh]
    rw [cumEnds_getD 0 _ j (by simpa using hj)]
    rw [sizes_getD_eq_shapes_prod (trainableParams d) j hj]
  · intro j hj
    rw [hs, he]
    exact cumStarts_getD_succ 0 _ j (by simpa using hj)

/-- C4 witness: the layout law instantiated at the scenario collection
(`array_length = 2·1 + 1·1 = 3`, offsets `a:[0,2)`, `b:[2,3)`). -/
theorem converter_layout_witness :
    scenarioConv.array_length =
      ((trainableParams scenarioDict).map fun kv =>
        kv.2.data.shape.prod).sum ∧
    scenarioConv.i_start.getD 0 0 = 0 ∧
    scenarioConv.i_start.getD 1 0 = scenarioConv.i_end.getD 0 0 ∧
    scenarioConv.i_end.getD 1 0 =
      scenarioConv.i_start.getD 1 0 + (scenarioConv.shapes.getD 1 []).prod := by
  obtain ⟨h1, _, _, _, h5, h6, h7⟩ :=
    converter_layout scenarioDict scenarioConv (by decide)
  exact ⟨h1, h5, h7 0 (by decide), h6 1 (by decide)⟩

/-- C5: fixed parameters contribute nothing to `array_length`, their keys
never enter `names` (so neither extraction loop ever visits them), and
`set_values_from_array` leaves them exactly as they were, for every input
vector. -/
theorem fixed_params_untouched (d : ParameterDict)
    (c : ParameterToArrayConverter)
    (h : ParameterToArrayConverter.init d = some c)
    (hnd : (d.map Prod.fst).Nodup) :
    c.array_length = ((trainableParams d).map fun kv => kv.2.data.size).sum ∧
    ∀ kv ∈ d, kv.2.grad_req = "null" →
      kv.1 ∉ c.names ∧
      ∀ (x : List ℚ) (c1 : ParameterToArrayConverter),
        c.set_values_from_array x = .ok c1 →
        ParameterDict.lookup c1.parameter_dict kv.1 = some kv.2 := by
  obtain ⟨hpd, hs, he, hsh, hdt, hcx, hnm, hlen, hne⟩ := init_spec d c h
  refine ⟨hlen, ?_⟩
  intro kv hmem hfix
  have hnotin : kv.1 ∉ c.names := by
    rw [hnm]
    intro hin
    rcases List.mem_map.mp hin with ⟨kv2, hkv2, hfst⟩
    have heq : kv2 = kv := entry_eq_of_fst_eq d hnd kv2 kv
      (List.mem_of_mem_filter hkv2) hmem hfst
    have hb := List.of_mem_filter hkv2
    rw [heq] at hb
    simp [hfix] at hb
  refine ⟨hnotin, ?_⟩
  intro x c1 hok
  unfold ParameterToArrayConverter.set_values_from_array at hok
  by_cases hlx : x.length ≠ c.array_length
  · rw [if_pos hlx] at hok
    simp at hok
  · rw [if_neg hlx] at hok
    cases hrun : setValuesLoop c.parameter_dict x c.names c.i_start c.i_end
        c.shapes c.dtypes c.contexts with
    | error e => rw [hrun] at hok; simp [Except.map] at hok
    | ok d1 =>
      rw [hrun] at hok
      simp only [Except.map, Except.ok.injEq] at hok
      have hl := setValuesLoop_lookup_preserved c.names c.i_start c.i_end
        c.shapes c.dtypes c.contexts c.parameter_dict d1 x kv.1 hrun hnotin
      rw [← hok]
      dsimp only
      rw [hl, hpd]
      exact lookup_eq_of_mem_nodup d kv hnd hmem

/-- C5 witness: writing [1, 2, 3] through the scenario adapter leaves the
fixed parameter `c` exactly as it was. -/
theorem fixed_params_untouched_witness :
    ParameterDict.lookup scenarioConvAfter.parameter_dict "c" =
      some paramC := by
  have h := fixed_params_untouched scenarioDict scenarioConv (by decide)
    (by decide)
  exact (h.2 ("c", paramC) (by decide) (by decide)).2 [1, 2, 3]
    scenarioConvAfter (by decide)

/-- C6: the end-to-end scenario.  For {a: (2,) trainable, b: (1,1)
trainable, c: (3,) fixed}: `array_length = 3`, offsets `a:[0,2)` and
`b:[2,3)`, and writing [1, 2, 3] sets a = [1, 2], b = [[3]] (flat data [3]
under shape [1,1]) while `c` keeps its original value. -/
theorem scenario_end_to_end :
    ParameterToArrayConverter.init scenarioDict = some scenarioConv ∧
    scenarioConv.array_length = 3 ∧
    scenarioConv.i_start = [0, 2] ∧
    scenarioConv.i_end = [2, 3] ∧
    scenarioConv.names = ["a", "b"] ∧
    scenarioConv.set_values_from_array [1, 2, 3] = .ok scenarioConvAfter ∧
    ParameterDict.lookup scenarioDictAfter "a" =
      some { paramA with data := ⟨[2], [1, 2], DType.float32, Context.cpu 0⟩ } ∧
    ParameterDict.lookup scenarioDictAfter "b" =
      some { paramB with data := ⟨[1, 1], [3], DType.float32, Context.cpu 0⟩ } ∧
    ParameterDict.lookup scenarioDictAfter "c" = some paramC := by decide

/-- C7: gradient extraction runs the identical traversal and layout as
value extraction — it equals value extraction on the dictionary whose every
value slot is replaced by the gradient slot.  Both are read-only: in this
state-passing model neither returns an updated dictionary. -/
theorem gradients_extraction_layout (c : ParameterToArrayConverter) :
    c.extract_parameter_gradients_as_array =
      ParameterToArrayConverter.extract_parameter_values_as_array
        { c with parameter_dict :=
            ParameterDict.grad_view c.parameter_dict } := by
  unfold ParameterToArrayConverter.extract_parameter_gradients_as_array
    ParameterToArrayConverter.extract_parameter_values_as_array
  dsimp only
  rw [gradientsLoop_eq]

/-- C8: on a well-formed collection, value extraction succeeds and returns
the one-dimensional vector of length `array_length` obtained by
concatenating the trainable parameters' flat values, with no effect on the
collection (the function is read-only in this model); being a pure function
of the current state, two calls without intervening mutation return the
same vector. -/
theorem extract_values_pure (d : ParameterDict)
    (c : ParameterToArrayConverter)
    (h : ParameterToArrayConverter.init d = some c)
    (hwf : ParameterDict.wf d) :
    ∃ v, c.extract_parameter_values_as_array = .ok v ∧
      v = ⟨((trainableParams d).map fun kv => kv.2.data.data).flatten,
        defaultDType⟩ ∧
      v.data.length = c.array_length := by
  obtain ⟨hpd, hs, he, hsh, hdt, hcx, hnm, hlen, hne⟩ := init_spec d c h
  obtain ⟨hnd, hent⟩ := hwf
  have hview : extractView d (trainableParams d)
      ((trainableParams d).map fun kv => kv.2.data.data) := by
    refine extractView_self (trainableParams d) d ?_
    intro kv hm
    have hmem := List.mem_of_mem_filter hm
    exact ⟨lookup_eq_of_mem_nodup d kv hnd hmem, (hent kv hmem).1⟩
  have hres := extractCanon_spec (trainableParams d) _ 0 d
    (ndZeros c.array_length) hview
    (by
      show 0 + _ ≤ (List.replicate c.array_length (0 : ℚ)).length
      rw [List.length_replicate, hlen]
      omega)
  have hflatlen :
      (((trainableParams d).map fun kv => kv.2.data.data).flatten).length =
        c.array_length := by
    rw [List.length_flatten, List.map_map, hlen]
    congr 1
    refine List.map_congr_left ?_
    intro kv hm
    exact (hent kv (List.mem_of_mem_filter hm)).1
  refine ⟨⟨((trainableParams d).map fun kv => kv.2.data.data).flatten,
    defaultDType⟩, ?_, rfl, hflatlen⟩
  unfold ParameterToArrayConverter.extract_parameter_values_as_array
  rw [hpd, hnm, hs, he,
    extractValuesLoop_canon (trainableParams d) 0 d (ndZeros c.array_length),
    hres]
  have hz : (ndZeros c.array_length).data.drop
      (0 + ((trainableParams d).map fun kv => kv.2.data.size).sum) = [] := by
    rw [List.drop_eq_nil_iff]
    simp [ndZeros, hlen]
  have hdata : (ndZeros c.array_length).data.take 0 ++
      ((trainableParams d).map fun kv => kv.2.data.data).flatten ++
      (ndZeros c.array_length).data.drop
        (0 + ((trainableParams d).map fun kv => kv.2.data.size).sum) =
      ((trainableParams d).map fun kv => kv.2.data.data).flatten := by
    rw [hz, List.append_nil]
    simp
  rw [hdata]
  rfl

/-- C8 witness: extraction at the scenario collection returns the fresh
vector [10, 20, 30] of length `array_length = 3`. -/
theorem extract_values_pure_witness :
    ∃ v, scenarioConv.extract_parameter_values_as_array = .ok v ∧
      v = ⟨((trainableParams scenarioDict).map fun kv =>
        kv.2.data.data).flatten, defaultDType⟩ ∧
      v.data.length = scenarioConv.array_length :=
  extract_values_pure scenarioDict scenarioConv (by decide) (by decide)

/-- C9: both extraction functions allocate their output with
`mx.nd.zeros(array_length)`, so whatever the individual parameters' dtypes
and contexts, a successful result is a `float32` vector and the buffer it
was filled into lives on the default device; each parameter's elements are
written (cast) into that `float32` default-context buffer. -/
theorem extract_buffers_default_dtype (c : ParameterToArrayConverter) :
    (∀ v, c.extract_parameter_values_as_array = .ok v →
      v.dtype = DType.float32) ∧
    (∀ g, c.extract_parameter_gradients_as_array = .ok g →
      g.dtype = DType.float32) ∧
    (∀ r, extractValuesLoop c.parameter_dict (ndZeros c.array_length)
        c.names c.i_start c.i_end = .ok r →
      r.dtype = DType.float32 ∧ r.context = defaultContext) ∧
    (∀ r, extractGradientsLoop c.parameter_dict (ndZeros c.array_length)
        c.names c.i_start c.i_end = .ok r →
      r.dtype = DType.float32 ∧ r.context = defaultContext) := by
  have hv : ∀ r, extractValuesLoop c.parameter_dict
      (ndZeros c.array_length) c.names c.i_start c.i_end = .ok r →
      r.dtype = DType.float32 ∧ r.context = defaultContext := by
    intro r hr
    exact extractValuesLoop_meta c.names c.i_start c.i_end c.parameter_dict
      (ndZeros c.array_length) r hr
  have hg : ∀ r, extractGradientsLoop c.parameter_dict
      (ndZeros c.array_length) c.names c.i_start c.i_end = .ok r →
      r.dtype = DType.float32 ∧ r.context = defaultContext := by
    intro r hr
    rw [gradientsLoop_eq] at hr
    exact extractValuesLoop_meta c.names c.i_start c.i_end _
      (ndZeros c.array_length) r hr
  refine ⟨?_, ?_, hv, hg⟩
  · intro v hok
    unfold ParameterToArrayConverter.extract_parameter_values_as_array at hok
    cases hr : extractValuesLoop c.parameter_dict (ndZeros c.array_length)
        c.names c.i_start c.i_end with
    | error e => rw [hr] at hok; simp [Except.map] at hok
    | ok r =>
      rw [hr] at hok
      simp only [Except.map, Except.ok.injEq] at hok
      rw [← hok]
      exact (hv r hr).1
  · intro g hok
    unfold ParameterToArrayConverter.extract_parameter_gradients_as_array
      at hok
    cases hr : extractGradientsLoop c.parameter_dict (ndZeros c.array_length)
        c.names c.i_start c.i_end with
    | error e => rw [hr] at hok; simp [Except.map] at hok
    | ok r =>
      rw [hr] at hok
      simp only [Except.map, Except.ok.injEq] at hok
      rw [← hok]
      exact (hg r hr).1

/-- C9 witness: extraction at the scenario adapter yields a `float32`
vector. -/
theorem extract_buffers_default_dtype_witness :
    scenarioConv.extract_parameter_values_as_array =
      .ok ⟨[10, 20, 30], DType.float32⟩ ∧
    (⟨[10, 20, 30], DType.float32⟩ : NPArray).dtype = DType.float32 :=
  ⟨by decide, (extract_buffers_default_dtype scenarioConv).1 _ (by decide)⟩

/-- C10: `run` never installs the optimizer's returned point: it equals the
process that evaluates `f_df` at the optimizer's query points and never
looks at `x_opt`/`f_opt`, and any two optimizer behaviours agreeing on the
query sequence leave the collection in the same final state — which is the
state written by the last `f_df` evaluation (the Python method returns
`None`; here the final shared-dictionary state is returned explicitly). -/
theorem run_ignores_x_opt (infr_loss : ParameterDict → ℚ)
    (infr_backward : ParameterDict → ParameterDict)
    (scipy : ScipyLBFGSB) (param_dict : ParameterDict) :
    BatchInferenceLoopLBFGS.run infr_loss infr_backward scipy param_dict =
      runQueriesOnly infr_loss infr_backward scipy.queries param_dict ∧
    ∀ scipy2 : ScipyLBFGSB, scipy2.queries = scipy.queries →
      BatchInferenceLoopLBFGS.run infr_loss infr_backward scipy param_dict =
        BatchInferenceLoopLBFGS.run infr_loss infr_backward scipy2
          param_dict := by
  refine ⟨rfl, ?_⟩
  intro scipy2 hq
  unfold BatchInferenceLoopLBFGS.run
  rw [hq]

/-- C10 witness: two optimizer behaviours with the same single query
[1, 2, 3] but different returned optima (9,9,9 versus 0,0,0) leave the
scenario collection in the same state — the values of the last query, not
the returned optimum. -/
theorem run_ignores_x_opt_witness :
    BatchInferenceLoopLBFGS.run (fun _ => 0) (fun d0 => d0)
      ⟨[[1, 2, 3]], [9, 9, 9], 5⟩ scenarioDict =
      BatchInferenceLoopLBFGS.run (fun _ => 0) (fun d0 => d0)
        ⟨[[1, 2, 3]], [0, 0, 0], 7⟩ scenarioDict ∧
    BatchInferenceLoopLBFGS.run (fun _ => 0) (fun d0 => d0)
      ⟨[[1, 2, 3]], [9, 9, 9], 5⟩ scenarioDict = .ok scenarioDictAfter :=
  ⟨(run_ignores_x_opt (fun _ => 0) (fun d0 => d0)
      ⟨[[1, 2, 3]], [9, 9, 9], 5⟩ scenarioDict).2
    ⟨[[1, 2, 3]], [0, 0, 0], 7⟩ rfl, by decide⟩

end MXFusion
